import Mathlib

/-!
# SimpLang: verification of the lexer/parser/evaluator pipeline spec

The repository ships the driver `main.c`; the scanner, parser and evaluator
it calls (declared in `compiler.h`) are modelled here from the spec.
All definitions are executable; theorems settle the spec's claims.
-/

set_option linter.unusedVariables false

namespace SimpLang

/-! ## Tokens (data model, spec §3) -/

/-- Operator token types.  The spec's fixed set of single- or double-character
symbol sequences: `+ - * / == ( )`. -/
inductive OpTok where
  | plus
  | minus
  | star
  | slash
  | eqeq
  | lparen
  | rparen
deriving DecidableEq, Repr

/-- `token_type_operator_name`: the operator's rendered name. -/
def token_type_operator_name : OpTok → String
  | .plus => "+"
  | .minus => "-"
  | .star => "*"
  | .slash => "/"
  | .eqeq => "=="
  | .lparen => "("
  | .rparen => ")"

/-- Keyword token types (reserved words of the language: `if`, `else`). -/
inductive Kw where
  | kif
  | kelse
deriving DecidableEq, Repr

/-- `token_type_keyword_name`: the keyword's rendered name. -/
def token_type_keyword_name : Kw → String
  | .kif => "if"
  | .kelse => "else"

/-- A token: keywords, operators, literals/identifiers, plus terminal EOF
(spec §3). -/
inductive Token where
  | integer (v : Int)
  | ident (name : String)
  | keyword (k : Kw)
  | operator (o : OpTok)
  | eof
deriving DecidableEq, Repr

/-- Signed 64-bit maximum, `2^63 - 1`. -/
def int64Max : Int := 2 ^ 63 - 1

/-- Signed 64-bit minimum, `-2^63`. -/
def int64Min : Int := -(2 ^ 63)

/-! ## Lexer (spec §4.1) -/

/-- Lexical errors (spec §7). -/
inductive LexError where
  | unexpectedChar (c : Char) (pos : Nat)
  | malformedNumber (pos : Nat)
deriving DecidableEq, Repr

/-- Modelled from the spec: the shared `context_t` of `compiler.h` (missing
from the sources) — the source buffer with the current scan position.  We keep
the unconsumed suffix of the buffer plus the absolute position. -/
structure Context where
  rem : List Char
  pos : Nat
deriving DecidableEq, Repr

/-- Whitespace recognized between tokens. -/
def isWs (c : Char) : Bool :=
  c = ' ' || c = '\n' || c = '\t' || c = '\r'

/-- Skip whitespace, advancing the position. -/
def skipWs : List Char → Nat → List Char × Nat
  | [], p => ([], p)
  | c :: cs, p => if isWs c then skipWs cs (p + 1) else (c :: cs, p)

/-- Numeric value of a digit run (base 10). -/
def digitsVal (ds : List Char) : Nat :=
  ds.foldl (fun a c => a * 10 + (c.toNat - '0'.toNat)) 0

/-- Modelled from the spec: the scanner's integer rule — a maximal run of
digits, base-10, `LexError.malformedNumber` if it overflows the signed 64-bit
range. -/
def scanNumber (c : Char) (cs : List Char) (p : Nat) :
    Except LexError (Token × Context) :=
  let ds := (c :: cs).takeWhile Char.isDigit
  let rest := (c :: cs).dropWhile Char.isDigit
  let n := digitsVal ds
  if (n : Int) > int64Max then .error (.malformedNumber p)
  else .ok (.integer (n : Int), ⟨rest, p + ds.length⟩)

/-- Modelled from the spec: the scanner's word rule — a maximal run of
letters/digits starting with a letter; reserved words yield keywords,
anything else an identifier. -/
def scanWord (c : Char) (cs : List Char) (p : Nat) :
    Except LexError (Token × Context) :=
  let w := (c :: cs).takeWhile Char.isAlphanum
  let rest := (c :: cs).dropWhile Char.isAlphanum
  let s := String.mk w
  let t := if s = "if" then Token.keyword .kif
           else if s = "else" then Token.keyword .kelse
           else Token.ident s
  .ok (t, ⟨rest, p + w.length⟩)

/-- Modelled from the spec: the scanner's symbol rule — fixed single- or
double-character operator sequences, longest match first (`==` before a lone
`=`); any other byte is `LexError.unexpectedChar`. -/
def scanSymbol (c : Char) (cs : List Char) (p : Nat) :
    Except LexError (Token × Context) :=
  match c, cs with
  | '=', '=' :: rest => .ok (.operator .eqeq, ⟨rest, p + 2⟩)
  | '+', rest => .ok (.operator .plus, ⟨rest, p + 1⟩)
  | '-', rest => .ok (.operator .minus, ⟨rest, p + 1⟩)
  | '*', rest => .ok (.operator .star, ⟨rest, p + 1⟩)
  | '/', rest => .ok (.operator .slash, ⟨rest, p + 1⟩)
  | '(', rest => .ok (.operator .lparen, ⟨rest, p + 1⟩)
  | ')', rest => .ok (.operator .rparen, ⟨rest, p + 1⟩)
  | c, _ => .error (.unexpectedChar c p)

/-- Modelled from the spec: `scan` (the `next_token` Lexer entry point of
`compiler.h`, missing from the sources) — skip whitespace, then classify the
next maximal lexeme; end of input yields `TOKEN_EOF`, idempotently. -/
def scan (ctx : Context) : Except LexError (Token × Context) :=
  match skipWs ctx.rem ctx.pos with
  | ([], p) => .ok (.eof, ⟨[], p⟩)
  | (c :: cs, p) =>
    if c.isDigit then scanNumber c cs p
    else if c.isAlpha then scanWord c cs p
    else scanSymbol c cs p

/-! ### Lexer lemmas -/

theorem scanNumber_ne_eof (c : Char) (cs : List Char) (p : Nat) (t : Token)
    (ctx' : Context) (h : scanNumber c cs p = .ok (t, ctx')) : t ≠ .eof := by
  unfold scanNumber at h
  dsimp only at h
  split at h
  · exact absurd h (by simp)
  · simp only [Except.ok.injEq, Prod.mk.injEq] at h
    rw [← h.1]
    simp

theorem scanWord_ne_eof (c : Char) (cs : List Char) (p : Nat) (t : Token)
    (ctx' : Context) (h : scanWord c cs p = .ok (t, ctx')) : t ≠ .eof := by
  unfold scanWord at h
  simp only [Except.ok.injEq, Prod.mk.injEq] at h
  rw [← h.1]
  split <;> [simp; split <;> simp]

theorem scanSymbol_ne_eof (c : Char) (cs : List Char) (p : Nat) (t : Token)
    (ctx' : Context) (h : scanSymbol c cs p = .ok (t, ctx')) : t ≠ .eof := by
  unfold scanSymbol at h
  split at h <;>
    first
      | (simp only [Except.ok.injEq, Prod.mk.injEq] at h; rw [← h.1]; simp)
      | exact absurd h (by simp)

/-- When `scan` returns `TOKEN_EOF`, the returned context has an empty
remainder. -/
theorem scan_eof_rem_nil (ctx ctx' : Context)
    (h : scan ctx = .ok (.eof, ctx')) : ctx'.rem = [] := by
  unfold scan at h
  split at h
  · simp only [Except.ok.injEq, Prod.mk.injEq] at h
    rw [← h.2]
  · split at h
    · exact absurd rfl (scanNumber_ne_eof _ _ _ _ _ h)
    · split at h
      · exact absurd rfl (scanWord_ne_eof _ _ _ _ _ h)
      · exact absurd rfl (scanSymbol_ne_eof _ _ _ _ _ h)

/-- `scan` on a context whose remainder is empty returns `TOKEN_EOF` and the
same context. -/
theorem scan_nil_eof (ctx : Context) (h : ctx.rem = []) :
    scan ctx = .ok (.eof, ctx) := by
  obtain ⟨rem, pos⟩ := ctx
  simp only at h
  subst h
  rfl

/-! ## Parser (spec §4.2) -/

/-- Parse errors (spec §7): an unexpected token aborts the active production;
a lexical failure inside the parse stage is surfaced unchanged. -/
inductive PError where
  | unexpectedToken (t : Token)
  | lexical (e : LexError)
  | depthExceeded
deriving DecidableEq, Repr

/-- Parser state: exactly one token of lookahead (`cur`) plus the shared
context (spec §4.2's lookahead discipline). -/
structure PState where
  cur : Token
  ctx : Context
deriving DecidableEq, Repr

/-- Fetch the next token into the lookahead slot; a `LexError` is surfaced
unchanged as `PError.lexical`. -/
def advance (ctx : Context) : Except PError PState :=
  match scan ctx with
  | .error e => .error (.lexical e)
  | .ok (t, ctx') => .ok ⟨t, ctx'⟩

/-- Binary-operator precedence, higher binds tighter; `none` for token types
that are not binary operators. -/
def binPrec : OpTok → Option Nat
  | .eqeq => some 1
  | .plus => some 2
  | .minus => some 2
  | .star => some 3
  | .slash => some 3
  | _ => none

/-- The AST (spec §3): a tagged union over four variants.  Operators reuse the
operator token type, as in the source's `expr->v.binary.op` being fed to
`token_type_operator_name`. -/
inductive Expr where
  | integer (v : Int)
  | ifE (condition consequent alternative : Expr)
  | unary (op : OpTok) (operand : Expr)
  | binary (op : OpTok) (left right : Expr)
deriving DecidableEq, Repr

mutual

/-- Modelled from the spec: the parser's expression rule (`parse_expr` of
`compiler.h`, missing from the sources).  Lowest precedence: the conditional
`if` *condition* *consequent* `else` *alternative*; otherwise a binary
expression.  The `fuel` argument bounds recursion depth; the entry point
passes enough for any input. -/
def parseExprF : Nat → PState → Except PError (Expr × PState)
  | 0, _ => .error .depthExceeded
  | fuel + 1, st =>
    match st.cur with
    | .keyword .kif => do
      let st1 ← advance st.ctx
      let (cond, st2) ← parseExprF fuel st1
      let (cons, st3) ← parseExprF fuel st2
      match st3.cur with
      | .keyword .kelse => do
        let st4 ← advance st3.ctx
        let (alt, st5) ← parseExprF fuel st4
        .ok (.ifE cond cons alt, st5)
      | t => .error (.unexpectedToken t)
    | _ => parseBinF fuel 1 st

/-- Modelled from the spec: precedence climbing over left-associative binary
operators — parse a unary expression, then fold in operators of precedence at
least `minPrec`. -/
def parseBinF : Nat → Nat → PState → Except PError (Expr × PState)
  | 0, _, _ => .error .depthExceeded
  | fuel + 1, minPrec, st => do
    let (lhs, st1) ← parseUnaryF fuel st
    parseBinLoop fuel minPrec lhs st1

/-- Modelled from the spec: the climbing loop — while the current token is a
binary operator of precedence `≥ minPrec`, consume it, parse the right operand
at precedence one higher (left associativity), and extend the left tree. -/
def parseBinLoop : Nat → Nat → Expr → PState → Except PError (Expr × PState)
  | 0, _, _, _ => .error .depthExceeded
  | fuel + 1, minPrec, lhs, st =>
    match st.cur with
    | .operator o =>
      match binPrec o with
      | some p =>
        if minPrec ≤ p then do
          let st1 ← advance st.ctx
          let (rhs, st2) ← parseBinF fuel (p + 1) st1
          parseBinLoop fuel minPrec (.binary o lhs rhs) st2
        else .ok (lhs, st)
      | none => .ok (lhs, st)
    | _ => .ok (lhs, st)

/-- Modelled from the spec: unary prefix operators (arithmetic negation)
above binary expressions, above primaries. -/
def parseUnaryF : Nat → PState → Except PError (Expr × PState)
  | 0, _ => .error .depthExceeded
  | fuel + 1, st =>
    match st.cur with
    | .operator .minus => do
      let st1 ← advance st.ctx
      let (x, st2) ← parseUnaryF fuel st1
      .ok (.unary .minus x, st2)
    | _ => parsePrimaryF fuel st

/-- Modelled from the spec: primary expressions — an integer literal or a
parenthesized sub-expression; any other current token (including `TOKEN_EOF`
where an operand is expected) fails with `PError.unexpectedToken`. -/
def parsePrimaryF : Nat → PState → Except PError (Expr × PState)
  | 0, _ => .error .depthExceeded
  | fuel + 1, st =>
    match st.cur with
    | .integer v => do
      let st1 ← advance st.ctx
      .ok (.integer v, st1)
    | .operator .lparen => do
      let st1 ← advance st.ctx
      let (e, st2) ← parseExprF fuel st1
      match st2.cur with
      | .operator .rparen => do
        let st3 ← advance st2.ctx
        .ok (e, st3)
      | t => .error (.unexpectedToken t)
    | t => .error (.unexpectedToken t)

end

/-- Modelled from the spec: the Parser entry point `parse_expr` — builds one
`Expr` tree for one complete top-level expression, or fails with the first
error.  The fuelled parser descends at most four nonterminal levels
(expression → binary → unary → primary) per character of input consumed, so
`4 * (length + 2)` fuel is never exhausted on any input. -/
def parse_expr (s : String) : Except PError Expr := do
  let st ← advance ⟨s.data, 0⟩
  let (e, _) ← parseExprF (4 * (s.length + 2)) st
  .ok e

/-! ## Evaluator (spec §4.3) -/

/-- Evaluation errors (spec §7). -/
inductive EvalError where
  | divisionByZero
  | overflow
  | unboundIdentifier
deriving DecidableEq, Repr

/-- Range-check an arithmetic result against the signed 64-bit range;
out-of-range results fail with `EvalError.overflow` (spec §4.3's fixed,
documented overflow policy). -/
def checkRange (v : Int) : Except EvalError Int :=
  if int64Min ≤ v ∧ v ≤ int64Max then .ok v else .error .overflow

/-- Modelled from the spec: unary operator application — arithmetic negation,
range-checked.  Only `-` occurs as a unary operator in parser-built trees;
other operator tokens are unreachable there and modelled as identity. -/
def apply_unop (o : OpTok) (a : Int) : Except EvalError Int :=
  match o with
  | .minus => checkRange (-a)
  | _ => checkRange a

/-- Modelled from the spec: binary operator application.  Division is C-style
truncation toward zero; division by zero fails with
`EvalError.divisionByZero`; `==` yields `1`/`0`.  Parenthesis token types
never occur in parser-built binary nodes and are modelled as `0`. -/
def apply_binop (o : OpTok) (a b : Int) : Except EvalError Int :=
  match o with
  | .plus => checkRange (a + b)
  | .minus => checkRange (a - b)
  | .star => checkRange (a * b)
  | .slash => if b = 0 then .error .divisionByZero else checkRange (Int.tdiv a b)
  | .eqeq => .ok (if a = b then 1 else 0)
  | _ => .ok 0

/-- Modelled from the spec: `eval_expr` (the Evaluator entry point of
`compiler.h`, missing from the sources).  `INTEGER` returns its value; `IF`
evaluates the condition and then only the selected branch (nonzero selects
the consequent); `UNARY` evaluates its operand; `BINARY` evaluates left then
right; the first error aborts evaluation. -/
def eval_expr : Expr → Except EvalError Int
  | .integer v => .ok v
  | .ifE c t e =>
    match eval_expr c with
    | .error err => .error err
    | .ok v => if v ≠ 0 then eval_expr t else eval_expr e
  | .unary o x =>
    match eval_expr x with
    | .error err => .error err
    | .ok a => apply_unop o a
  | .binary o l r =>
    match eval_expr l with
    | .error err => .error err
    | .ok a =>
      match eval_expr r with
      | .error err => .error err
      | .ok b => apply_binop o a b

/-! ## Claim C1: precedence and left associativity -/

/-- C1: Binary-expression parsing respects operator precedence and left
associativity: `"1 + 2 * 3"` parses to
`BINARY(+, INTEGER(1), BINARY(*, INTEGER(2), INTEGER(3)))` and evaluates
to `7`; `"10 - 3 - 2"` parses to
`BINARY(-, BINARY(-, INTEGER(10), INTEGER(3)), INTEGER(2))` and evaluates
to `5`. -/
theorem parse_precedence_and_left_assoc :
    parse_expr "1 + 2 * 3" =
      .ok (.binary .plus (.integer 1)
            (.binary .star (.integer 2) (.integer 3))) ∧
    eval_expr (.binary .plus (.integer 1)
            (.binary .star (.integer 2) (.integer 3))) = .ok 7 ∧
    parse_expr "10 - 3 - 2" =
      .ok (.binary .minus (.binary .minus (.integer 10) (.integer 3))
            (.integer 2)) ∧
    eval_expr (.binary .minus (.binary .minus (.integer 10) (.integer 3))
            (.integer 2)) = .ok 5 :=
  ⟨rfl, rfl, rfl, rfl⟩

/-! ## Claim C2: short-circuit conditional evaluation -/

/-- C2: Evaluating an `IF` node is short-circuiting: the condition is
evaluated first, nonzero selects the consequent and zero the alternative, and
only the selected branch is evaluated — in particular an unevaluated
division-by-zero in the unselected branch cannot surface.  Concretely,
`if (1) 5 else (1/0)` evaluates to `5` without `DivisionByZero`, and
`if (0) (1/0) else 5` likewise. -/
theorem eval_if_short_circuit :
    (∀ c t e : Expr, ∀ v : Int, eval_expr c = .ok v →
      (v ≠ 0 → eval_expr (.ifE c t e) = eval_expr t) ∧
      (v = 0 → eval_expr (.ifE c t e) = eval_expr e)) ∧
    eval_expr (.ifE (.integer 1) (.integer 5)
      (.binary .slash (.integer 1) (.integer 0))) = .ok 5 ∧
    eval_expr (.ifE (.integer 0)
      (.binary .slash (.integer 1) (.integer 0)) (.integer 5)) = .ok 5 := by
  refine ⟨fun c t e v hc => ⟨fun hv => ?_, fun hv => ?_⟩, rfl, rfl⟩
  · show (match eval_expr c with
      | .error err => .error err
      | .ok v => if v ≠ 0 then eval_expr t else eval_expr e) = eval_expr t
    rw [hc]
    simp [hv]
  · show (match eval_expr c with
      | .error err => .error err
      | .ok v => if v ≠ 0 then eval_expr t else eval_expr e) = eval_expr e
    rw [hc]
    simp [hv]

/-- Witness for C2 at concrete inputs: the condition `1` is nonzero, so the
`IF` evaluates exactly to its consequent, whatever the alternative. -/
theorem eval_if_short_circuit_witness :
    eval_expr (.ifE (.integer 1) (.integer 5)
      (.binary .slash (.integer 1) (.integer 0))) =
      eval_expr (.integer 5) :=
  (eval_if_short_circuit.1 (.integer 1) (.integer 5)
    (.binary .slash (.integer 1) (.integer 0)) 1 rfl).1 (by decide)

/-! ## Claim C4: lexer end-of-input idempotence -/

/-- C4: once `scan` has returned `TOKEN_EOF` for a context, the returned
context is drained, so every subsequent call returns `TOKEN_EOF` again with
the same context and never an error. -/
theorem scan_eof_idempotent (ctx ctx' : Context)
    (h : scan ctx = .ok (.eof, ctx')) : scan ctx' = .ok (.eof, ctx') :=
  scan_nil_eof ctx' (scan_eof_rem_nil ctx ctx' h)

/-- Witness for C4: after scanning the tail of `" "` past its whitespace,
`scan` returns `TOKEN_EOF`, and the follow-up call returns `TOKEN_EOF` on the
unchanged context. -/
theorem scan_eof_idempotent_witness :
    scan ⟨[], 1⟩ = .ok (.eof, ⟨[], 1⟩) :=
  scan_eof_idempotent ⟨[' '], 0⟩ ⟨[], 1⟩ rfl

/-! ## Claim C3: errors as result values, propagated unchanged -/

/-- C3: every pipeline error is a normal result value: `parse_expr` always
returns either an `Expr` or a `PError` (so no partially-built AST escapes on
error), an error in any sub-evaluation aborts `eval_expr` and is surfaced to
the caller unchanged, a truncated binary expression fails with
`ParseError::UnexpectedToken` at `TOKEN_EOF`, and a lexical error arising
mid-parse is surfaced to the parser's caller unchanged. -/
theorem pipeline_errors_are_result_values :
    (∀ s : String, (∃ e, parse_expr s = .error e) ∨ (∃ t, parse_expr s = .ok t)) ∧
    (∀ c t e : Expr, ∀ err, eval_expr c = .error err →
      eval_expr (.ifE c t e) = .error err) ∧
    (∀ o : OpTok, ∀ x : Expr, ∀ err, eval_expr x = .error err →
      eval_expr (.unary o x) = .error err) ∧
    (∀ o : OpTok, ∀ l r : Expr, ∀ err, eval_expr l = .error err →
      eval_expr (.binary o l r) = .error err) ∧
    (∀ o : OpTok, ∀ l r : Expr, ∀ a err, eval_expr l = .ok a →
      eval_expr r = .error err → eval_expr (.binary o l r) = .error err) ∧
    parse_expr "1 +" = .error (.unexpectedToken .eof) ∧
    parse_expr "1 $" = .error (.lexical (.unexpectedChar '$' 2)) := by
  refine ⟨fun s => ?_, fun c t e err hc => ?_, fun o x err hx => ?_,
    fun o l r err hl => ?_, fun o l r a err hl hr => ?_, rfl, rfl⟩
  · cases h : parse_expr s with
    | error e => exact .inl ⟨e, rfl⟩
    | ok t => exact .inr ⟨t, rfl⟩
  · show (match eval_expr c with
      | .error err => .error err
      | .ok v => if v ≠ 0 then eval_expr t else eval_expr e) =
      Except.error err
    rw [hc]
  · show (match eval_expr x with
      | .error err => .error err
      | .ok a => apply_unop o a) = Except.error err
    rw [hx]
  · show (match eval_expr l with
      | .error err => .error err
      | .ok a => match eval_expr r with
        | .error err => .error err
        | .ok b => apply_binop o a b) = Except.error err
    rw [hl]
  · show (match eval_expr l with
      | .error err => .error err
      | .ok a => match eval_expr r with
        | .error err => .error err
        | .ok b => apply_binop o a b) = Except.error err
    rw [hl, hr]

/-- Witness for C3 at concrete inputs: a division by zero in the condition of
an `IF` aborts the whole evaluation with the same `DivisionByZero` error. -/
theorem pipeline_errors_witness :
    eval_expr (.ifE (.binary .slash (.integer 1) (.integer 0))
      (.integer 1) (.integer 2)) = .error .divisionByZero :=
  pipeline_errors_are_result_values.2.1
    (.binary .slash (.integer 1) (.integer 0)) (.integer 1) (.integer 2)
    .divisionByZero rfl

/-! ## Printers (from `src/schani/course/main.c`) -/

/-- The per-token dump line of `scan_main` (`main.c` lines 10–27): keywords,
operators, integers and identifiers each render as one line; `TOKEN_EOF`
leaves the loop and prints nothing. -/
def scan_main_line : Token → Option String
  | .keyword k => some ("keyword " ++ token_type_keyword_name k)
  | .operator o => some ("operator " ++ token_type_operator_name o)
  | .integer v => some ("integer " ++ toString v)
  | .ident s => some ("identifier " ++ s)
  | .eof => none

/-- The indent prefix of `print_expr` (`main.c` lines 32–33): one two-space
unit per nesting level. -/
def indentStr : Nat → String
  | 0 => ""
  | n + 1 => "  " ++ indentStr n

/-- `print_expr` (`main.c` lines 29–56) as the list of lines it prints:
an `INTEGER` prints its value; `IF` prints `if` then condition, consequent,
alternative one level deeper; `UNARY`/`BINARY` print the operator name then
their children one level deeper, left to right. -/
def print_expr : Expr → Nat → List String
  | .integer v, ind => [indentStr ind ++ toString v]
  | .ifE c t e, ind =>
    (indentStr ind ++ "if") ::
      (print_expr c (ind + 1) ++ print_expr t (ind + 1) ++ print_expr e (ind + 1))
  | .unary o x, ind =>
    (indentStr ind ++ token_type_operator_name o) :: print_expr x (ind + 1)
  | .binary o l r, ind =>
    (indentStr ind ++ token_type_operator_name o) ::
      (print_expr l (ind + 1) ++ print_expr r (ind + 1))

/-! ### Decimal rendering emits no newline -/

theorem digitChar_ne_newline (n : Nat) : Nat.digitChar n ≠ '\n' := by
  match n with
  | 0 | 1 | 2 | 3 | 4 | 5 | 6 | 7 | 8 | 9
  | 10 | 11 | 12 | 13 | 14 | 15 => decide
  | m + 16 =>
    have h : Nat.digitChar (m + 16) = '*' := rfl
    rw [h]
    decide

theorem toDigitsCore_ne_newline (b fuel : Nat) :
    ∀ (n : Nat) (ds : List Char), (∀ c ∈ ds, c ≠ '\n') →
      ∀ c ∈ Nat.toDigitsCore b fuel n ds, c ≠ '\n' := by
  induction fuel with
  | zero => intro n ds hds; simpa [Nat.toDigitsCore] using hds
  | succ f ih =>
    intro n ds hds c hc
    unfold Nat.toDigitsCore at hc
    dsimp only at hc
    split at hc
    · rcases List.mem_cons.mp hc with h | h
      · rw [h]; exact digitChar_ne_newline _
      · exact hds c h
    · refine ih _ _ ?_ c hc
      intro c' hc'
      rcases List.mem_cons.mp hc' with h | h
      · rw [h]; exact digitChar_ne_newline _
      · exact hds c' h

theorem natRepr_ne_newline (n : Nat) : ∀ c ∈ (Nat.repr n).data, c ≠ '\n' := by
  intro c hc
  exact toDigitsCore_ne_newline 10 (n + 1) n [] (by simp) c hc

theorem intToString_ne_newline (v : Int) :
    ∀ c ∈ (toString v).data, c ≠ '\n' := by
  cases v with
  | ofNat n => exact natRepr_ne_newline n
  | negSucc n =>
    intro c hc
    have : (toString (Int.negSucc n)).data = '-' :: (Nat.repr (n + 1)).data := rfl
    rw [this] at hc
    rcases List.mem_cons.mp hc with h | h
    · rw [h]; decide
    · exact natRepr_ne_newline (n + 1) c h

/-! ### Shapes of scanner results -/

theorem scanNumber_ok_shape (c : Char) (cs : List Char) (p : Nat) (t : Token)
    (ctx' : Context) (h : scanNumber c cs p = .ok (t, ctx')) :
    ∃ v, t = .integer v := by
  unfold scanNumber at h
  dsimp only at h
  split at h
  · exact absurd h (by simp)
  · simp only [Except.ok.injEq, Prod.mk.injEq] at h
    exact ⟨_, h.1.symm⟩

theorem scanSymbol_ok_shape (c : Char) (cs : List Char) (p : Nat) (t : Token)
    (ctx' : Context) (h : scanSymbol c cs p = .ok (t, ctx')) :
    ∃ o, t = .operator o := by
  unfold scanSymbol at h
  split at h <;>
    first
      | (simp only [Except.ok.injEq, Prod.mk.injEq] at h; exact ⟨_, h.1.symm⟩)
      | exact absurd h (by simp)

theorem scanWord_ok_shape (c : Char) (cs : List Char) (p : Nat) (t : Token)
    (ctx' : Context) (h : scanWord c cs p = .ok (t, ctx')) :
    (∃ k, t = .keyword k) ∨
      t = .ident (String.mk ((c :: cs).takeWhile Char.isAlphanum)) := by
  unfold scanWord at h
  simp only [Except.ok.injEq, Prod.mk.injEq] at h
  rw [← h.1]
  split
  · exact .inl ⟨_, rfl⟩
  · split
    · exact .inl ⟨_, rfl⟩
    · exact .inr rfl

/-- Identifier tokens produced by the scanner carry only letters and
digits. -/
theorem scan_ident_chars (ctx : Context) (nm : String) (ctx' : Context)
    (h : scan ctx = .ok (.ident nm, ctx')) :
    ∀ c ∈ nm.data, c.isAlphanum := by
  unfold scan at h
  split at h
  · simp at h
  · rename_i c cs p heq
    split at h
    · obtain ⟨v, hv⟩ := scanNumber_ok_shape _ _ _ _ _ h
      exact absurd hv (by simp)
    · split at h
      · rcases scanWord_ok_shape _ _ _ _ _ h with ⟨k, hk⟩ | hident
        · exact absurd hk (by simp)
        · intro ch hch
          have hnm : nm = String.mk ((c :: cs).takeWhile Char.isAlphanum) := by
            injection hident
          rw [hnm] at hch
          exact List.mem_takeWhile_imp hch
      · obtain ⟨o, ho⟩ := scanSymbol_ok_shape _ _ _ _ _ h
        exact absurd ho (by simp)

/-! ## Claim C5: the token dump's four line forms -/

/-- C5: for every token the scanner returns other than `TOKEN_EOF`, the token
dump of `scan_main` deterministically renders exactly one newline-free line of
one of the four forms `keyword <name>`, `operator <name>`,
`integer <value>`, `identifier <name>`, according to the token's type
family. -/
theorem scan_main_line_four_forms (ctx : Context) (t : Token) (ctx' : Context)
    (hscan : scan ctx = .ok (t, ctx')) (hne : t ≠ .eof) :
    ∃ s, scan_main_line t = some s ∧ (∀ c ∈ s.data, c ≠ '\n') ∧
      ((∃ k, t = .keyword k ∧ s = "keyword " ++ token_type_keyword_name k) ∨
       (∃ o, t = .operator o ∧ s = "operator " ++ token_type_operator_name o) ∨
       (∃ v, t = .integer v ∧ s = "integer " ++ toString v) ∨
       (∃ nm, t = .ident nm ∧ s = "identifier " ++ nm)) := by
  cases t with
  | integer v =>
    refine ⟨"integer " ++ toString v, rfl, ?_, .inr (.inr (.inl ⟨v, rfl, rfl⟩))⟩
    intro c hc
    rw [String.data_append] at hc
    rcases List.mem_append.mp hc with h | h
    · exact (by decide : ∀ x ∈ "integer ".data, x ≠ '\n') c h
    · exact intToString_ne_newline v c h
  | ident nm =>
    refine ⟨"identifier " ++ nm, rfl, ?_, .inr (.inr (.inr ⟨nm, rfl, rfl⟩))⟩
    intro c hc
    rw [String.data_append] at hc
    rcases List.mem_append.mp hc with h | h
    · exact (by decide : ∀ x ∈ "identifier ".data, x ≠ '\n') c h
    · have halpha := scan_ident_chars ctx nm ctx' hscan c h
      intro hcn
      rw [hcn] at halpha
      exact absurd halpha (by decide)
  | keyword k =>
    refine ⟨"keyword " ++ token_type_keyword_name k, rfl, ?_,
      .inl ⟨k, rfl, rfl⟩⟩
    cases k <;> decide
  | operator o =>
    refine ⟨"operator " ++ token_type_operator_name o, rfl, ?_,
      .inr (.inl ⟨o, rfl, rfl⟩)⟩
    cases o <;> decide
  | eof => exact absurd rfl hne

/-- Witness for C5: scanning `"ab"` yields the identifier token `ab`, whose
dump line is `identifier ab`. -/
theorem scan_main_line_four_forms_witness :
    ∃ s, scan_main_line (.ident "ab") = some s ∧ (∀ c ∈ s.data, c ≠ '\n') ∧
      ((∃ k, Token.ident "ab" = .keyword k ∧
          s = "keyword " ++ token_type_keyword_name k) ∨
       (∃ o, Token.ident "ab" = .operator o ∧
          s = "operator " ++ token_type_operator_name o) ∨
       (∃ v, Token.ident "ab" = .integer v ∧ s = "integer " ++ toString v) ∨
       (∃ nm, Token.ident "ab" = .ident nm ∧ s = "identifier " ++ nm)) :=
  scan_main_line_four_forms ⟨['a', 'b'], 0⟩ (.ident "ab") ⟨[], 2⟩
    (by rfl) (by simp)

/-! ## Claim C6: `print_expr` is an indented pre-order dump -/

/-- The label a node contributes to its own line: an `INTEGER` its decimal
value, an `IF` the word `if`, `UNARY`/`BINARY` the operator's name. -/
def node_label : Expr → String
  | .integer v => toString v
  | .ifE _ _ _ => "if"
  | .unary o _ => token_type_operator_name o
  | .binary o _ _ => token_type_operator_name o

/-- The pre-order traversal of a tree with each node paired with its nesting
depth: the node itself first, then its children (left to right) one level
deeper. -/
def preorder_nodes : Expr → Nat → List (Nat × Expr)
  | .integer v, d => [(d, .integer v)]
  | .ifE c t e, d =>
    (d, .ifE c t e) ::
      (preorder_nodes c (d + 1) ++ preorder_nodes t (d + 1) ++
        preorder_nodes e (d + 1))
  | .unary o x, d => (d, .unary o x) :: preorder_nodes x (d + 1)
  | .binary o l r, d =>
    (d, .binary o l r) ::
      (preorder_nodes l (d + 1) ++ preorder_nodes r (d + 1))

/-- Number of nodes of a tree. -/
def expr_size : Expr → Nat
  | .integer _ => 1
  | .ifE c t e => 1 + expr_size c + expr_size t + expr_size e
  | .unary _ x => 1 + expr_size x
  | .binary _ l r => 1 + expr_size l + expr_size r

/-- C6: `print_expr` emits an indented pre-order dump, exactly one node per
line: starting at depth `d`, its lines are precisely the pre-order traversal
of the tree, each node on one line consisting of its depth's worth of
two-space indent units followed by the node's label (integer value, `if`, or
operator name), children one level deeper in left-to-right order; the number
of lines equals the number of nodes. -/
theorem print_expr_is_indented_preorder (e : Expr) (d : Nat) :
    print_expr e d =
      (preorder_nodes e d).map (fun p => indentStr p.1 ++ node_label p.2) ∧
    (print_expr e d).length = expr_size e := by
  induction e generalizing d with
  | integer v => simp [print_expr, preorder_nodes, node_label, expr_size]
  | ifE c t e ihc iht ihe =>
    constructor
    · simp only [print_expr, preorder_nodes, List.map_cons, List.map_append]
      rw [(ihc (d + 1)).1, (iht (d + 1)).1, (ihe (d + 1)).1]
      rfl
    · simp only [print_expr, List.length_cons, List.length_append, expr_size,
        (ihc (d + 1)).2, (iht (d + 1)).2, (ihe (d + 1)).2]
      omega
  | unary o x ihx =>
    constructor
    · simp only [print_expr, preorder_nodes, List.map_cons]
      rw [(ihx (d + 1)).1]
      rfl
    · simp only [print_expr, List.length_cons, expr_size, (ihx (d + 1)).2]
      omega
  | binary o l r ihl ihr =>
    constructor
    · simp only [print_expr, preorder_nodes, List.map_cons, List.map_append]
      rw [(ihl (d + 1)).1, (ihr (d + 1)).1]
      rfl
    · simp only [print_expr, List.length_cons, List.length_append, expr_size,
        (ihl (d + 1)).2, (ihr (d + 1)).2]
      omega

/-! ## Claim C10: `print_expr` terminates on every finite tree -/

/-- Height of a tree: `0` at leaves, one more than the tallest child
otherwise. -/
def height : Expr → Nat
  | .integer _ => 0
  | .ifE c t e => 1 + max (height c) (max (height t) (height e))
  | .unary _ x => 1 + height x
  | .binary _ l r => 1 + max (height l) (height r)

/-- `print_expr` with an explicit recursion-depth budget, `none` when the
budget runs out: each recursive call is on a strict child with one unit of
budget less, mirroring the C call structure. -/
def print_expr_fuel : Nat → Expr → Nat → Option (List String)
  | 0, _, _ => none
  | _ + 1, .integer v, ind => some [indentStr ind ++ toString v]
  | f + 1, .ifE c t e, ind =>
    match print_expr_fuel f c (ind + 1), print_expr_fuel f t (ind + 1),
        print_expr_fuel f e (ind + 1) with
    | some lc, some lt, some le =>
      some ((indentStr ind ++ "if") :: (lc ++ lt ++ le))
    | _, _, _ => none
  | f + 1, .unary o x, ind =>
    match print_expr_fuel f x (ind + 1) with
    | some lx => some ((indentStr ind ++ token_type_operator_name o) :: lx)
    | none => none
  | f + 1, .binary o l r, ind =>
    match print_expr_fuel f l (ind + 1), print_expr_fuel f r (ind + 1) with
    | some ll, some lr =>
      some ((indentStr ind ++ token_type_operator_name o) :: (ll ++ lr))
    | _, _ => none

/-- C10: `print_expr` terminates for every finite tree at any indent depth:
each recursive call is on a strict child, so the recursion depth is bounded
by the tree's height, and any budget beyond the height yields the total
function's value rather than running out. -/
theorem print_expr_terminates (e : Expr) :
    ∀ d f : Nat, height e < f →
      print_expr_fuel f e d = some (print_expr e d) := by
  induction e with
  | integer v =>
    intro d f hf
    match f, hf with
    | g + 1, _ => rfl
  | ifE c t e ihc iht ihe =>
    intro d f hf
    match f, hf with
    | g + 1, hf =>
      have hc : height c < g := by simp [height] at hf; omega
      have ht : height t < g := by simp [height] at hf; omega
      have he : height e < g := by simp [height] at hf; omega
      show (match print_expr_fuel g c (d + 1), print_expr_fuel g t (d + 1),
          print_expr_fuel g e (d + 1) with
        | some lc, some lt, some le =>
          some ((indentStr d ++ "if") :: (lc ++ lt ++ le))
        | _, _, _ => none) = some (print_expr (.ifE c t e) d)
      rw [ihc (d + 1) g hc, iht (d + 1) g ht, ihe (d + 1) g he]
      rfl
  | unary o x ihx =>
    intro d f hf
    match f, hf with
    | g + 1, hf =>
      have hx : height x < g := by simp [height] at hf; omega
      show (match print_expr_fuel g x (d + 1) with
        | some lx =>
          some ((indentStr d ++ token_type_operator_name o) :: lx)
        | none => none) = some (print_expr (.unary o x) d)
      rw [ihx (d + 1) g hx]
      rfl
  | binary o l r ihl ihr =>
    intro d f hf
    match f, hf with
    | g + 1, hf =>
      have hl : height l < g := by simp [height] at hf; omega
      have hr : height r < g := by simp [height] at hf; omega
      show (match print_expr_fuel g l (d + 1), print_expr_fuel g r (d + 1) with
        | some ll, some lr =>
          some ((indentStr d ++ token_type_operator_name o) :: (ll ++ lr))
        | _, _ => none) = some (print_expr (.binary o l r) d)
      rw [ihl (d + 1) g hl, ihr (d + 1) g hr]
      rfl

/-- Witness for C10: a depth budget of `2` suffices for the height-`1` tree
`BINARY(+, 1, 2)`. -/
theorem print_expr_terminates_witness :
    print_expr_fuel 2 (.binary .plus (.integer 1) (.integer 2)) 0 =
      some (print_expr (.binary .plus (.integer 1) (.integer 2)) 0) :=
  print_expr_terminates (.binary .plus (.integer 1) (.integer 2)) 0 2
    (by decide)

/-! ## Claim C8: the `assert(false)` arms are unreachable

The C dispatch switches run over numeric discriminants, so the default arms
are a runtime matter.  To state their unreachability we model the raw
discriminant encoding: a token or node type is an arbitrary `Nat`, and the
dispatchers return `none` where the C code would fail.
-/

/-- A raw token as `scan_main` sees it: a numeric type discriminant with the
union payload.  Keywords occupy discriminants `0`–`1` (`if`, `else`),
operators `2`–`8`, then `TOKEN_INTEGER = 9`, `TOKEN_IDENT = 10`,
`TOKEN_EOF = 11`; anything else is an invalid discriminant. -/
structure RawToken where
  ty : Nat
  ival : Int
  name : String
deriving DecidableEq, Repr

/-- `token_type_is_keyword` over the raw discriminant. -/
def raw_is_keyword (ty : Nat) : Bool := ty < 2

/-- `token_type_is_operator` over the raw discriminant. -/
def raw_is_operator (ty : Nat) : Bool := 2 ≤ ty && ty ≤ 8

/-- `token_type_keyword_name` over the raw discriminant. -/
def raw_keyword_name (ty : Nat) : String := if ty = 0 then "if" else "else"

/-- `token_type_operator_name` over the raw discriminant. -/
def raw_operator_name (ty : Nat) : String :=
  if ty = 2 then "+" else if ty = 3 then "-" else if ty = 4 then "*"
  else if ty = 5 then "/" else if ty = 6 then "==" else if ty = 7 then "("
  else ")"

/-- The dispatch chain of `scan_main` (`main.c` lines 15–25) over a raw
token: `none` is the final `assert(false)` branch. -/
def scan_main_line_raw (t : RawToken) : Option String :=
  if raw_is_keyword t.ty then some ("keyword " ++ raw_keyword_name t.ty)
  else if raw_is_operator t.ty then some ("operator " ++ raw_operator_name t.ty)
  else if t.ty = 9 then some ("integer " ++ toString t.ival)
  else if t.ty = 10 then some ("identifier " ++ t.name)
  else none

/-- The raw encoding of the tokens the scanner actually produces. -/
def rawOfToken : Token → RawToken
  | .keyword .kif => ⟨0, 0, ""⟩
  | .keyword .kelse => ⟨1, 0, ""⟩
  | .operator .plus => ⟨2, 0, ""⟩
  | .operator .minus => ⟨3, 0, ""⟩
  | .operator .star => ⟨4, 0, ""⟩
  | .operator .slash => ⟨5, 0, ""⟩
  | .operator .eqeq => ⟨6, 0, ""⟩
  | .operator .lparen => ⟨7, 0, ""⟩
  | .operator .rparen => ⟨8, 0, ""⟩
  | .integer v => ⟨9, v, ""⟩
  | .ident s => ⟨10, 0, s⟩
  | .eof => ⟨11, 0, ""⟩

/-- A raw AST node as `print_expr` sees it: a numeric type discriminant
(`EXPR_INTEGER = 0`, `EXPR_IF = 1`, `EXPR_UNARY = 2`, `EXPR_BINARY = 3`),
the union payload, and the node's children pointers. -/
inductive RawExpr where
  | mk (ty : Nat) (ival : Int) (op : OpTok) (kids : List RawExpr)

/-- The dispatch switch of `print_expr` (`main.c` lines 34–55) over a raw
node: the last arm (`none` on an unknown discriminant) is the
`default: assert(false)` arm; a node whose child count does not match its
variant reads unusable memory, also modelled as `none`. -/
def print_expr_raw : RawExpr → Nat → Option (List String)
  | .mk 0 v _ _, ind => some [indentStr ind ++ toString v]
  | .mk 1 _ _ [c, t, e], ind =>
    match print_expr_raw c (ind + 1), print_expr_raw t (ind + 1),
        print_expr_raw e (ind + 1) with
    | some lc, some lt, some le =>
      some ((indentStr ind ++ "if") :: (lc ++ lt ++ le))
    | _, _, _ => none
  | .mk 1 _ _ _, _ => none
  | .mk 2 _ o [x], ind =>
    match print_expr_raw x (ind + 1) with
    | some lx => some ((indentStr ind ++ token_type_operator_name o) :: lx)
    | none => none
  | .mk 2 _ _ _, _ => none
  | .mk 3 _ o [l, r], ind =>
    match print_expr_raw l (ind + 1), print_expr_raw r (ind + 1) with
    | some ll, some lr =>
      some ((indentStr ind ++ token_type_operator_name o) :: (ll ++ lr))
    | _, _ => none
  | .mk _ _ _ _, _ => none

/-- The §3 invariant on raw nodes: the discriminant is one of the four
variants and the child arity matches it, recursively. -/
inductive WFRaw : RawExpr → Prop where
  | integer (v : Int) (o : OpTok) : WFRaw (.mk 0 v o [])
  | ifE (v : Int) (o : OpTok) {c t e : RawExpr} :
      WFRaw c → WFRaw t → WFRaw e → WFRaw (.mk 1 v o [c, t, e])
  | unary (v : Int) (o : OpTok) {x : RawExpr} :
      WFRaw x → WFRaw (.mk 2 v o [x])
  | binary (v : Int) (o : OpTok) {l r : RawExpr} :
      WFRaw l → WFRaw r → WFRaw (.mk 3 v o [l, r])

/-- C8: the driver's `assert(false)` arms are unreachable: `print_expr` on
any node satisfying the §3 invariant (discriminant among the four variants,
matching arity) never reaches its `default` arm, and every token other than
`TOKEN_EOF` that the scanner can produce falls into the keyword, operator,
integer or identifier branch of `scan_main`, never its final `assert`. -/
theorem assert_false_arms_unreachable :
    (∀ r : RawExpr, WFRaw r → ∀ ind : Nat,
      (print_expr_raw r ind).isSome) ∧
    (∀ t : Token, t ≠ .eof → (scan_main_line_raw (rawOfToken t)).isSome) := by
  constructor
  · intro r hwf
    induction hwf with
    | integer v o => intro ind; rfl
    | ifE v o hc ht he ihc iht ihe =>
      intro ind
      obtain ⟨lc, hlc⟩ := Option.isSome_iff_exists.mp (ihc (ind + 1))
      obtain ⟨lt, hlt⟩ := Option.isSome_iff_exists.mp (iht (ind + 1))
      obtain ⟨le, hle⟩ := Option.isSome_iff_exists.mp (ihe (ind + 1))
      show (match print_expr_raw _ (ind + 1), print_expr_raw _ (ind + 1),
          print_expr_raw _ (ind + 1) with
        | some lc, some lt, some le =>
          some ((indentStr ind ++ "if") :: (lc ++ lt ++ le))
        | _, _, _ => none).isSome
      rw [hlc, hlt, hle]
      rfl
    | unary v o hx ihx =>
      intro ind
      obtain ⟨lx, hlx⟩ := Option.isSome_iff_exists.mp (ihx (ind + 1))
      show (match print_expr_raw _ (ind + 1) with
        | some lx =>
          some ((indentStr ind ++ token_type_operator_name _) :: lx)
        | none => none).isSome
      rw [hlx]
      rfl
    | binary v o hl hr ihl ihr =>
      intro ind
      obtain ⟨ll, hll⟩ := Option.isSome_iff_exists.mp (ihl (ind + 1))
      obtain ⟨lr, hlr⟩ := Option.isSome_iff_exists.mp (ihr (ind + 1))
      show (match print_expr_raw _ (ind + 1), print_expr_raw _ (ind + 1) with
        | some ll, some lr =>
          some ((indentStr ind ++ token_type_operator_name _) :: (ll ++ lr))
        | _, _ => none).isSome
      rw [hll, hlr]
      rfl
  · intro t hne
    cases t with
    | keyword k => cases k <;> rfl
    | operator o => cases o <;> rfl
    | integer v => rfl
    | ident s => rfl
    | eof => exact absurd rfl hne

/-- Witness for C8: a well-formed `IF` node over three integer leaves prints
without reaching the `default` arm, and the integer token `7` is dumped
without reaching `scan_main`'s final assert. -/
theorem assert_false_arms_unreachable_witness :
    (print_expr_raw
      (.mk 1 0 .plus
        [.mk 0 1 .plus [], .mk 0 2 .plus [], .mk 0 3 .plus []]) 0).isSome ∧
    (scan_main_line_raw (rawOfToken (.integer 7))).isSome :=
  ⟨assert_false_arms_unreachable.1 _
      (WFRaw.ifE 0 .plus (WFRaw.integer 1 .plus) (WFRaw.integer 2 .plus)
        (WFRaw.integer 3 .plus)) 0,
    assert_false_arms_unreachable.2 (.integer 7) (by simp)⟩

/-! ## Claims C7 and C9: the driver -/

/-- The three demonstration modes of the driver (`main.c` lines 85–87). -/
inductive Mode where
  | scanMode
  | parseMode
  | evalMode
deriving DecidableEq, Repr

/-- The mode compiled into the driver: `scan_main` and `eval_main` are
commented out, `parse_main` runs. -/
def selected_mode : Mode := .parseMode

/-- An observable action of the driver: initializing the context from a file
path (`scan_init`), or running one demonstration mode. -/
inductive DriverEvent where
  | init (path : String)
  | run (m : Mode)
deriving DecidableEq, Repr

/-- The observable outcome of one driver invocation: exit status, lines
printed to stderr, and the actions performed in order. -/
structure DriverResult where
  exitCode : Nat
  errLines : List String
  events : List DriverEvent
deriving DecidableEq, Repr

/-- `main` (`main.c` lines 73–90): with `argc != 2` it prints the usage line
to stderr and returns `1` before touching the context; otherwise it calls
`scan_init` on `argv[1]`, runs the selected mode once, and returns `0`. -/
def main_driver (argv : List String) : DriverResult :=
  if argv.length ≠ 2 then ⟨1, ["Usage: simplang FILE"], []⟩
  else ⟨0, [], [.init (argv.getD 1 ""), .run selected_mode]⟩

/-- The modes a driver invocation actually ran, in order. -/
def mode_runs (res : DriverResult) : List Mode :=
  res.events.filterMap fun ev =>
    match ev with
    | .run m => some m
    | _ => none

/-- C7: the driver selects one of the three demonstration modes — token dump,
tree print, or evaluation — and one successful invocation runs the selected
mode exactly once. -/
theorem driver_runs_one_of_three_modes_once :
    (selected_mode = .scanMode ∨ selected_mode = .parseMode ∨
      selected_mode = .evalMode) ∧
    ∀ prog path : String,
      mode_runs (main_driver [prog, path]) = [selected_mode] :=
  ⟨.inr (.inl rfl), fun prog path => rfl⟩

/-- C9: invoked with any argument count other than exactly one (`argc ≠ 2`),
`main` prints `Usage: simplang FILE` to stderr and returns `1` without
initializing the context or invoking any pipeline stage; with exactly one
argument it initializes the context from that path, runs the selected mode,
and returns `0`. -/
theorem main_usage_check (argv : List String) :
    (argv.length ≠ 2 →
      main_driver argv = ⟨1, ["Usage: simplang FILE"], []⟩) ∧
    (∀ prog path : String, argv = [prog, path] →
      main_driver argv = ⟨0, [], [.init path, .run selected_mode]⟩) := by
  constructor
  · intro h
    simp [main_driver, h]
  · intro prog path h
    subst h
    rfl

/-- Witness for C9: with no file argument the driver reports usage and exits
`1`; with one it initializes from the path and exits `0`. -/
theorem main_usage_check_witness :
    main_driver ["simplang"] = ⟨1, ["Usage: simplang FILE"], []⟩ ∧
    main_driver ["simplang", "prog.sl"] =
      ⟨0, [], [.init "prog.sl", .run selected_mode]⟩ :=
  ⟨(main_usage_check ["simplang"]).1 (by decide),
    (main_usage_check ["simplang", "prog.sl"]).2 "simplang" "prog.sl" rfl⟩

end SimpLang
